import Mathlib

/-
Shallow embedding of the pr-dashboard synchronization-and-triage engine
(Rust sources: src/database.rs, src/main.rs, src/route/{housekeep_prs,
reserve_pr, update_prs, extend_revervations}.rs).

Modelling conventions:
* Timestamps are modelled as integers (minutes).  The source stores
  timestamps as TEXT in the fixed-width format "%Y-%m-%d %H:%M:%S"; both
  the SQL MAX / ORDER BY comparisons and the Rust String comparisons on
  that format agree with chronological order, so integer order is a
  faithful image.
* The SQLite tables `pulls` and `reservations` become Lean lists of rows;
  `id` is the PRIMARY KEY of both tables, so well-formed states have
  nodup ids (stated as a hypothesis where a proof needs it).
* The serialized pull-request payload (the `data` TEXT column) is kept as
  a structured value `PullData`; SQL substring filters over the payload
  (built by `construct_sql_filter`, whose definition is not part of the
  sources under verification) are abstracted as an arbitrary Boolean
  predicate on the payload, which every theorem quantifies over.
* Fallible SQL statements whose errors the source merely logs and skips
  are modelled by their success path; a failing transaction commit is
  modelled explicitly (as a Boolean) where a claim is about it.
-/

namespace PrDashboard

/-- Category constant, from `static AWAITING_AUTHOR` in src/main.rs. -/
def AWAITING_AUTHOR : String := "AwaitingAuthor"

/-- Category constant, from `static NEEDS_REVIEWER` in src/main.rs. -/
def NEEDS_REVIEWER : String := "NeedsReviewer"

/-- Category constant, from `static NEEDS_MERGER` in src/main.rs. -/
def NEEDS_MERGER : String := "NeedsMerger"

/-- A GitHub label carried by a pull request (only the name is ever
inspected by the engine). -/
structure Label where
  name : String
deriving Repr, DecidableEq

/-- The parsed pull-request payload (the fields of octocrab's
PullRequest that the engine reads): label list, draft flag and update
time.  `number` is the upstream PR number, which the sync engine also
uses as the row id. -/
structure PullData where
  number : Nat
  labels : Option (List Label)
  draft : Option Bool
  updated_at : Int
deriving Repr, DecidableEq

/-- One row of the `pulls` table (schema in DB::new, src/database.rs). -/
structure PullRow where
  id : Nat
  author : String
  last_updated : Int
  data : PullData
  category : Option String
  reserved_by : Option String
deriving Repr, DecidableEq

/-- One row of the `reservations` table (schema in DB::new,
src/database.rs). -/
structure Reservation where
  id : Nat
  time : Int
deriving Repr, DecidableEq

/-- The persistent store: both tables. -/
structure DBState where
  pulls : List PullRow
  reservations : List Reservation
deriving Repr, DecidableEq

/-- Rust str::starts_with, used for the ofborg label check. -/
def strStartsWith (s pre : String) : Bool := pre.toList.isPrefixOf s.toList

/-- DB::last_update (src/database.rs 47-51): SELECT MAX(last_updated)
FROM pulls, NULL on an empty table. -/
def last_update (s : DBState) : Option Int := (s.pulls.map (·.last_updated)).max?

/-! ## Categorizer (src/route/housekeep_prs.rs lines 24-79) -/

/-- Label scan no. 1 of housekeep_prs: some label starts with "10."
(ofborg finished evaluating the PR). -/
def ofborg_evaled (labels : List Label) : Bool :=
  labels.any (fun x => strStartsWith x.name "10.")

/-- Label scan no. 2 of housekeep_prs: an awaiting-changes /
merge-conflict / needs-changes label, or the draft flag. -/
def await_author (data : PullData) : Bool :=
  ((data.labels.getD []).any fun x =>
    x.name = "awaiting_changes" || x.name = "2.status: merge conflict"
      || x.name = "2.status: needs-changes")
  || data.draft.getD false

/-- Label scan no. 3 of housekeep_prs: a needs-merger / awaiting-merger /
3-plus-approvals / maintainer-approval label. -/
def need_merger (labels : List Label) : Bool :=
  labels.any fun x =>
    x.name = "needs_merger" || x.name = "awaiting_merger"
      || x.name = "12.approvals: 3+" || x.name = "12.approved-by: package-maintainer"

/-- The categorizer decision of housekeep_prs for one row: the new
category (the source only issues an UPDATE when it differs from the
stored one, which leaves the same table state as always storing the
result). -/
def recategorize (data : PullData) (category : Option String) : Option String :=
  if await_author data then some AWAITING_AUTHOR
  else if need_merger (data.labels.getD []) then some NEEDS_MERGER
  else if ofborg_evaled (data.labels.getD []) then some NEEDS_REVIEWER
  else category

/-! ## Housekeeping (src/route/housekeep_prs.rs) -/

/-- chrono Duration::num_hours: whole hours, truncated toward zero.
The argument is a duration in minutes. -/
def num_hours (minutes : Int) : Int := Int.tdiv minutes 60

/-- The ids collected into `pulls_to_unreserve`: reservations whose age
at `now` is at least one whole hour. -/
def pulls_to_unreserve (s : DBState) (now : Int) : List Nat :=
  ((s.reservations.filter fun r => 1 ≤ num_hours (now - r.time)).map (·.id))

/-- housekeep_prs (src/route/housekeep_prs.rs): recategorize every pull,
then delete every expired reservation and clear `reserved_by` of the
rows with those ids, all in one transaction. -/
def housekeep_prs (s : DBState) (now : Int) : DBState :=
  let pulls1 := s.pulls.map fun p => { p with category := recategorize p.data p.category }
  let expired := pulls_to_unreserve s now
  { pulls := pulls1.map fun p =>
      if expired.contains p.id then { p with reserved_by := none } else p,
    reservations := s.reservations.filter fun r => !(expired.contains r.id) }

/-! ## Selector (Transaction::get_pulls, src/database.rs lines 78-157) -/

/-- The row type returned by get_pulls: the parsed payload together with
the stored category (struct PR in src/database.rs). -/
structure PR where
  inner : PullData
  category : Option String
deriving Repr, DecidableEq

/-- The approval score computed inside get_pulls' tweak-sort closure:
the assignments for the three tier labels run in sequence (each
overwrites the previous, so the highest present tier wins), then the
maintainer-approval label adds one. -/
def approvalsOf (labels : List Label) : Nat :=
  let approvals : Nat := 0
  let approvals := if labels.any (fun x => x.name = "12.approvals: 1") then 1 else approvals
  let approvals := if labels.any (fun x => x.name = "12.approvals: 2") then 2 else approvals
  let approvals := if labels.any (fun x => x.name = "12.approvals: 3+") then 3 else approvals
  if labels.any (fun x => x.name = "12.approved-by: package-maintainer")
    then approvals + 1 else approvals

/-- The sort key of get_pulls' tweak sort.  The source key is
(approvals, Reverse(now - updated_at)); Reverse flips the comparison of
the second component, so as an ascending key it is the negated age
updated_at - now. -/
def tweakKey (now : Int) (x : PR) : Nat × Int :=
  (approvalsOf (x.inner.labels.getD []), x.inner.updated_at - now)

/-- Rust's lexicographic tuple order on the tweak-sort keys. -/
def tweakKeyLE (now : Int) (x y : PR) : Prop :=
  (tweakKey now x).1 < (tweakKey now y).1
    ∨ ((tweakKey now x).1 = (tweakKey now y).1 ∧ (tweakKey now x).2 ≤ (tweakKey now y).2)

instance (now : Int) : DecidableRel (tweakKeyLE now) := fun x y => by
  unfold tweakKeyLE; infer_instance

instance (now : Int) : IsTotal PR (tweakKeyLE now) where
  total x y := by unfold tweakKeyLE; omega

instance (now : Int) : IsTrans PR (tweakKeyLE now) where
  trans x y z := by unfold tweakKeyLE; omega

/-- ORDER BY last_updated ASC.  SQLite does not specify the order of
rows with equal sort keys; the embedding resolves ties by table order
(a stable sort). -/
def luLE (p q : PullRow) : Prop := p.last_updated ≤ q.last_updated

instance : DecidableRel luLE := fun p q => by unfold luLE; infer_instance

instance : IsTotal PullRow luLE where
  total p q := by unfold luLE; omega

instance : IsTrans PullRow luLE where
  trans p q r := by unfold luLE; omega

/-- The in-memory re-sort at the end of get_pulls
(prs.sort_unstable_by_key, src/database.rs lines 135-155). -/
def tweak_sort_page (now : Int) (page : List PR) : List PR :=
  List.insertionSort (tweakKeyLE now) page

/-- The WHERE clause of get_pulls applied to one row: category match
(IS NULL when the category argument is absent or the sentinel "New"),
the payload filter, and the reserved_by IS NULL conjunct when
only_not_reserved is set. -/
def getPullsPred (category : Option String) (filter : PullData → Bool)
    (only_not_reserved : Bool) (p : PullRow) : Bool :=
  (if (category.map (fun x => x == "New")).getD true
    then p.category.isNone else p.category == category)
  && filter p.data
  && (!only_not_reserved || p.reserved_by.isNone)

/-- Transaction::get_pulls (src/database.rs lines 90-157): the tweak
sort is forced off for NeedsMerger, the rows are selected by
getPullsPred ordered by last_updated ascending and bounded to `limit`,
and the fetched page is re-sorted when the tweak sort is on. -/
def get_pulls (s : DBState) (category : Option String) (filter : PullData → Bool)
    (only_not_reserved : Bool) (tweak_sort : Bool) (limit : Nat) (now : Int) : List PR :=
  let tweak_sort := if category = some NEEDS_MERGER then false else tweak_sort
  let rows := s.pulls.filter (getPullsPred category filter only_not_reserved)
  let page := ((List.insertionSort luLE rows).take limit).map
    fun p => ({ inner := p.data, category := p.category } : PR)
  if tweak_sort then tweak_sort_page now page else page

/-! ## Reservation manager (src/route/reserve_pr.rs and
src/route/extend_revervations.rs) -/

/-- The WHERE clause of reserve_pr's selection subquery: reserved_by IS
NULL, the category qualifier (IS NULL when the request category is the
sentinel "New"), and the optional payload filter. -/
def reserveEligible (cat : String) (filter : PullData → Bool) (p : PullRow) : Bool :=
  p.reserved_by.isNone
  && (if cat = "New" then p.category.isNone else p.category == some cat)
  && filter p.data

/-- The id returned by reserve_pr's UPDATE ... RETURNING id: the row
selected by the subquery ORDER BY last_updated ASC LIMIT 1. -/
def reserve_select (s : DBState) (cat : String) (filter : PullData → Bool) : Option Nat :=
  ((List.insertionSort luLE (s.pulls.filter (reserveEligible cat filter))).head?).map (·.id)

/-- The URL built by reserve_pr for the claimed PR. -/
def prUrl (id : Nat) : String := "https://github.com/NixOS/nixpkgs/pull/" ++ toString id

/-- INSERT INTO reservations ... ON CONFLICT DO UPDATE SET time
(src/route/reserve_pr.rs lines 56-61). -/
def upsertReservation (rs : List Reservation) (id : Nat) (time : Int) : List Reservation :=
  if rs.any (fun r => r.id == id)
    then rs.map fun r => if r.id == id then { r with time := time } else r
    else rs ++ [{ id := id, time := time }]

/-- reserve_pr (src/route/reserve_pr.rs): inside one transaction, pick
the oldest unreserved matching row, set its reserved_by to the caller's
ip, upsert its reservation with a fresh time, and commit.  A commit
failure (commitOk = false) is only logged: the state reverts but the
URL is still returned.  Returns the final persisted state and the
response body (none encodes the empty no-PR response). -/
def reserve_pr (s : DBState) (cat : String) (filter : PullData → Bool)
    (ip : String) (time : Int) (commitOk : Bool) : DBState × Option String :=
  match reserve_select s cat filter with
  | none => (s, none)
  | some id =>
    let s1 : DBState :=
      { pulls := s.pulls.map fun p =>
          if p.id == id then { p with reserved_by := some ip } else p,
        reservations := upsertReservation s.reservations id time }
    (if commitOk then s1 else s, some (prUrl id))

/-- The single statement UPDATE reservations SET time = ?1 executed by
extend_reservations, modelled with the rows it makes SQLite return: an
UPDATE without a RETURNING clause produces no result rows. -/
def sqlUpdateReservationTimes (rs : List Reservation) (time : Int) :
    List Reservation × List Unit :=
  (rs.map fun r => { r with time := time }, [])

/-- extend_reservations (src/route/extend_revervations.rs): time is now
plus seven days (in minutes); the reported count is the number of rows
returned by the UPDATE statement (query_map ... count in the source),
not the number of rows it changed. -/
def extend_reservations (s : DBState) (now : Int) : DBState × Nat :=
  let time := now + 7 * 24 * 60
  let (rs, returned) := sqlUpdateReservationTimes s.reservations time
  ({ s with reservations := rs }, returned.length)

/-! ## Sync engine (src/route/update_prs.rs) -/

/-- One pull request as fetched from the upstream list call: its number,
optional update time, closed flag, optional author login, and the
payload that would be serialized into the data column. -/
structure FetchedPR where
  number : Nat
  updated_at : Option Int
  closed : Bool
  author : Option String
  data : PullData
deriving Repr, DecidableEq

/-- One record queued for the upsert write of update_prs. -/
structure UpsertRow where
  id : Nat
  author : String
  last_updated : Option Int
  data : PullData
deriving Repr, DecidableEq

/-- The early-termination test of update_prs (lines 50-57):
updated_at.map(x is strictly below the cursor).unwrap_or(false). -/
def older_than_cursor (updated_at cursor : Option Int) : Bool :=
  (updated_at.map fun x => (cursor.map fun y => decide (x < y)).getD false).getD false

/-- The body of update_prs' page loop for one fetched page: closed PRs
go to the removal list, a PR strictly older than the cursor stops the
whole paging loop (the Boolean result), a PR without an author is
skipped with a warning, anything else is queued for upsert. -/
def collectPage (cursor : Option Int) : List FetchedPR → List UpsertRow × List Nat × Bool
  | [] => ([], [], false)
  | pr :: rest =>
    if pr.closed then
      ((collectPage cursor rest).1, pr.number :: (collectPage cursor rest).2.1,
        (collectPage cursor rest).2.2)
    else if older_than_cursor pr.updated_at cursor then
      ([], [], true)
    else match pr.author with
      | none => collectPage cursor rest
      | some a =>
        ({ id := pr.number, author := a, last_updated := pr.updated_at,
            data := pr.data } :: (collectPage cursor rest).1,
          (collectPage cursor rest).2.1, (collectPage cursor rest).2.2)

/-- The page loop of update_prs over the upstream feed (the list of
pages the upstream returns; the loop stops at the first empty page, at
the end of the feed, or when a page hits the cursor). -/
def collectPages (cursor : Option Int) : List (List FetchedPR) → List UpsertRow × List Nat
  | [] => ([], [])
  | page :: rest =>
    if page.isEmpty then ([], [])
    else if (collectPage cursor page).2.2 then
      ((collectPage cursor page).1, (collectPage cursor page).2.1)
    else
      ((collectPage cursor page).1 ++ (collectPages cursor rest).1,
        (collectPage cursor page).2.1 ++ (collectPages cursor rest).2)

/-- One INSERT ... ON CONFLICT DO UPDATE of update_prs (lines 79-90):
only author, last_updated and data are written; a new row starts with
NULL category and NULL reserved_by.  A row whose last_updated is NULL
violates the NOT NULL constraint, which the source logs and skips. -/
def applyUpsert (pulls : List PullRow) (u : UpsertRow) : List PullRow :=
  match u.last_updated with
  | none => pulls
  | some t =>
    if pulls.any (fun p => p.id == u.id) then
      pulls.map fun p =>
        if p.id == u.id
          then { p with author := u.author, last_updated := t, data := u.data } else p
    else
      pulls ++ [{ id := u.id, author := u.author, last_updated := t, data := u.data,
                  category := none, reserved_by := none }]

/-- update_prs (src/route/update_prs.rs): read the cursor, collect the
feed, then in one transaction apply every upsert and delete the rows of
all closed ids.  The reservations table is not touched. -/
def update_prs (s : DBState) (pages : List (List FetchedPR)) : DBState :=
  { pulls := (((collectPages (last_update s) pages).1).foldl applyUpsert s.pulls).filter
      fun p => !(((collectPages (last_update s) pages).2).contains p.id),
    reservations := s.reservations }

/-! ## Filter-term validation (fn root, src/main.rs lines 161-178) -/

/-- Rust str::split(';'): every maximal run between semicolons, with
empty runs kept. -/
def splitSemi (l : List Char) : List (List Char) :=
  match l with
  | [] => [[]]
  | c :: rest =>
    let r := splitSemi rest
    if c = ';' then [] :: r
    else (c :: r.headI) :: r.tail

/-- The character allow-list of the label-filter validation in fn root:
ASCII alphanumeric, dot, space, dash, underscore, colon. -/
def labelFilterCharOk (c : Char) : Bool :=
  c.isAlphanum || c = '.' || c = ' ' || c = '-' || c = '_' || c = ':'

/-- The validation loop of fn root over a filter query: each
semicolon-separated label must consist of allowed characters only,
otherwise the handler rejects the request (panics with "invalid
character in label filter") before any database access. -/
def validate_filter (filter_query : String) : Bool :=
  (splitSemi filter_query.toList).all fun label => label.all labelFilterCharOk

/-! ## The reservation invariant (spec section 3) -/

/-- The data-model invariant: a reservation row exists exactly for the
ids of pulls whose reserved_by is non-null (stated as the two bounded
inclusions, which is the same as the per-id iff because both sides range
over the finite tables). -/
def Inv (s : DBState) : Prop :=
  (∀ r ∈ s.reservations, ∃ p ∈ s.pulls, p.id = r.id ∧ p.reserved_by ≠ none)
  ∧ (∀ p ∈ s.pulls, p.reserved_by ≠ none → ∃ r ∈ s.reservations, r.id = p.id)

instance (s : DBState) : Decidable (Inv s) := by unfold Inv; infer_instance

/-! ## Spec-side definitions, written from the claims' words, for
comparison with the source-derived definitions above -/

/-- The approval tier as the claim words it: the highest matching tier
among the three mutually exclusive approvals markers, not additive. -/
def specApprovalTier (labels : List Label) : Nat :=
  if labels.any (fun x => x.name = "12.approvals: 3+") then 3
  else if labels.any (fun x => x.name = "12.approvals: 2") then 2
  else if labels.any (fun x => x.name = "12.approvals: 1") then 1
  else 0

/-- The urgency ordering claim C4 asserts: ascending approval score,
and within equal scores newer items (larger update time) first. -/
def specUrgencyNewerFirst (l : List PR) : Prop :=
  l.Pairwise fun a b =>
    approvalsOf (a.inner.labels.getD []) < approvalsOf (b.inner.labels.getD [])
    ∨ (approvalsOf (a.inner.labels.getD []) = approvalsOf (b.inner.labels.getD [])
        ∧ b.inner.updated_at ≤ a.inner.updated_at)

instance (l : List PR) : Decidable (specUrgencyNewerFirst l) := by
  unfold specUrgencyNewerFirst; infer_instance

/-- The character allow-list claim C8 asserts: alphanumerics, space,
dot, dash, underscore, colon, slash and parentheses. -/
def specC8AllowedChar (c : Char) : Bool :=
  c.isAlphanum || c = ' ' || c = '.' || c = '-' || c = '_' || c = ':'
    || c = '/' || c = '(' || c = ')'

/-- The allow-list as amended (claim C8 minus slash and parentheses,
which fn root does not accept). -/
def specC8AllowedCharAmended (c : Char) : Bool :=
  c.isAlphanum || c = ' ' || c = '.' || c = '-' || c = '_' || c = ':'

/-! ## Concrete states and feeds used by counterexamples and witnesses -/

/-- A payload with no labels, updated at time 100. -/
def exData100 : PullData := { number := 1, labels := some [], draft := none, updated_at := 100 }

/-- A payload with no labels, updated at time 200. -/
def exData200 : PullData := { number := 2, labels := some [], draft := none, updated_at := 200 }

/-- Selector row for exData100 (the older item). -/
def exPR100 : PR := { inner := exData100, category := none }

/-- Selector row for exData200 (the newer item). -/
def exPR200 : PR := { inner := exData200, category := none }

/-- Store with two unreserved uncategorized pulls, id 1 newer than id 2. -/
def exStoreTwo : DBState :=
  { pulls := [{ id := 1, author := "a", last_updated := 300, data := exData100,
                category := none, reserved_by := none },
              { id := 2, author := "b", last_updated := 100, data := exData200,
                category := none, reserved_by := none }],
    reservations := [] }

/-- Store with pulls of last_updated 10 and 5 (for the sync-cursor
counterexample). -/
def exStoreCursor : DBState :=
  { pulls := [{ id := 1, author := "a", last_updated := 10, data := exData100,
                category := none, reserved_by := none },
              { id := 2, author := "b", last_updated := 5, data := exData200,
                category := none, reserved_by := none }],
    reservations := [] }

/-- Store with one reserved pull and its reservation row (for the
sync-delete counterexample). -/
def exStoreReserved : DBState :=
  { pulls := [{ id := 1, author := "a", last_updated := 10, data := exData100,
                category := none, reserved_by := some "ip" }],
    reservations := [{ id := 1, time := 3 }] }

/-- A one-page upstream feed closing PR 1 (updated after the cursor). -/
def exFeedClose1 : List (List FetchedPR) :=
  [[{ number := 1, updated_at := some 30, closed := true, author := some "a",
      data := exData100 }]]

/-- A one-page upstream feed with one open PR 3, updated at 50. -/
def exFeedOpen3 : List (List FetchedPR) :=
  [[{ number := 3, updated_at := some 50, closed := false, author := some "c",
      data := { number := 3, labels := some [], draft := none, updated_at := 50 } }]]

/-- Store with one expired (id 1, one hour old at time 100) and one
fresh (id 2) reservation, both pulls reserved. -/
def exStoreLease : DBState :=
  { pulls := [{ id := 1, author := "a", last_updated := 0, data := exData100,
                category := none, reserved_by := some "ip" },
              { id := 2, author := "b", last_updated := 0, data := exData200,
                category := none, reserved_by := some "ip" }],
    reservations := [{ id := 1, time := 0 }, { id := 2, time := 90 }] }

/-! ## Helper lemmas -/

theorem num_hours_one_iff (m : Int) : (1 ≤ num_hours m) ↔ 60 ≤ m := by
  unfold num_hours
  rcases m with m | m
  · show Int.ofNat 1 ≤ Int.ofNat (m / 60) ↔ Int.ofNat 60 ≤ Int.ofNat m
    simp only [Int.ofNat_eq_natCast]
    omega
  · show (1 : Int) ≤ -Int.ofNat ((m + 1) / 60) ↔ (60 : Int) ≤ Int.negSucc m
    have h1 : (0 : Int) ≤ Int.ofNat ((m + 1) / 60) := Int.ofNat_nonneg _
    have h2 : Int.negSucc m < 0 := Int.negSucc_lt_zero m
    constructor <;> intro h <;> omega

theorem mem_of_nodup_map_id {l : List Reservation} (hn : (l.map (·.id)).Nodup)
    {r r2 : Reservation} (hr : r ∈ l) (hr2 : r2 ∈ l) (h : r2.id = r.id) : r2 = r :=
  List.inj_on_of_nodup_map hn hr2 hr h

theorem contains_iff {α : Type} [BEq α] [LawfulBEq α] (l : List α) (a : α) :
    l.contains a = true ↔ a ∈ l := by simp

theorem housekeep_pulls_src (s : DBState) (now : Int) {p2 : PullRow}
    (h : p2 ∈ (housekeep_prs s now).pulls) :
    ∃ p ∈ s.pulls, p2.id = p.id ∧ p2.reserved_by
      = (if (pulls_to_unreserve s now).contains p.id then none else p.reserved_by) := by
  unfold housekeep_prs at h
  simp only [List.mem_map] at h
  obtain ⟨q, ⟨p, hp, rfl⟩, rfl⟩ := h
  refine ⟨p, hp, ?_⟩
  by_cases hc : p.id ∈ pulls_to_unreserve s now <;> simp [hc]

theorem housekeep_pulls_tgt (s : DBState) (now : Int) {p : PullRow} (h : p ∈ s.pulls) :
    ∃ p2 ∈ (housekeep_prs s now).pulls, p2.id = p.id ∧ p2.reserved_by
      = (if (pulls_to_unreserve s now).contains p.id then none else p.reserved_by) := by
  unfold housekeep_prs
  simp only [List.mem_map]
  refine ⟨_, ⟨_, ⟨p, h, rfl⟩, rfl⟩, ?_⟩
  by_cases hc : p.id ∈ pulls_to_unreserve s now <;> simp [hc]

/-! ## Claim C3: categorizer priority -/

/-- Claim C3: recategorize applies its rules in fixed priority order
with the first match winning: an awaiting-changes, merge-conflict or
needs-changes marker or the draft flag gives AwaitingAuthor (whatever
other markers are present); otherwise the merger markers give
NeedsMerger; otherwise a label prefixed "10." gives NeedsReviewer;
otherwise the stored category is left unchanged, and a non-null stored
category is never reset to null. -/
theorem recategorize_priority (data : PullData) (category : Option String) :
    (await_author data = true → recategorize data category = some AWAITING_AUTHOR)
    ∧ (await_author data = false → need_merger (data.labels.getD []) = true →
        recategorize data category = some NEEDS_MERGER)
    ∧ (await_author data = false → need_merger (data.labels.getD []) = false →
        ofborg_evaled (data.labels.getD []) = true →
        recategorize data category = some NEEDS_REVIEWER)
    ∧ (await_author data = false → need_merger (data.labels.getD []) = false →
        ofborg_evaled (data.labels.getD []) = false →
        recategorize data category = category)
    ∧ (category ≠ none → recategorize data category ≠ none) := by
  unfold recategorize
  cases h1 : await_author data <;> cases h2 : need_merger (data.labels.getD []) <;>
    cases h3 : ofborg_evaled (data.labels.getD []) <;> simp_all

/-- Witness for C3 at a concrete item that is both a draft and marked
needs_merger: AwaitingAuthor wins. -/
theorem recategorize_priority_witness :
    recategorize { number := 1, labels := some [{ name := "needs_merger" }],
                   draft := some true, updated_at := 0 } none = some AWAITING_AUTHOR :=
  (recategorize_priority _ none).1 (by decide)

/-! ## Claim C5: lease expiry -/

/-- Claim C5: a reservation older than 60 minutes when housekeep_prs
runs loses its reservation row, and every pull with its id gets a null
reserved_by, in the same transaction; a reservation younger than the
timeout survives unchanged and the reserved_by of its pulls is
untouched. -/
theorem housekeep_lease_expiry (s : DBState) (now : Int)
    (hn : (s.reservations.map (·.id)).Nodup) :
    ∀ r ∈ s.reservations,
      (60 < now - r.time →
        (∀ r2 ∈ (housekeep_prs s now).reservations, r2.id ≠ r.id)
        ∧ (∀ p ∈ (housekeep_prs s now).pulls, p.id = r.id → p.reserved_by = none))
      ∧ (now - r.time < 60 →
        r ∈ (housekeep_prs s now).reservations
        ∧ (∀ p ∈ s.pulls, p.id = r.id →
            ∃ p2 ∈ (housekeep_prs s now).pulls,
              p2.id = p.id ∧ p2.reserved_by = p.reserved_by)) := by
  intro r hr
  constructor
  · intro hold
    have hexp : r.id ∈ pulls_to_unreserve s now := by
      unfold pulls_to_unreserve
      exact List.mem_map_of_mem _
        (List.mem_filter.mpr ⟨hr, by rw [decide_eq_true_iff, num_hours_one_iff]; omega⟩)
    constructor
    · intro r2 hr2 heq
      unfold housekeep_prs at hr2
      simp only [List.mem_filter, Bool.not_eq_eq_eq_not, Bool.not_true] at hr2
      rw [← heq] at hexp
      rw [(contains_iff _ _).mpr hexp] at hr2
      exact absurd hr2.2 (by simp)
    · intro p hp hid
      obtain ⟨p0, _, hpid, hres⟩ := housekeep_pulls_src s now hp
      rw [hres, if_pos ((contains_iff _ _).mpr (by rw [← hpid, hid]; exact hexp))]
  · intro hyoung
    have hnot : ¬ r.id ∈ pulls_to_unreserve s now := by
      intro hmem
      unfold pulls_to_unreserve at hmem
      simp only [List.mem_map, List.mem_filter] at hmem
      obtain ⟨r2, ⟨hr2, hage⟩, hid⟩ := hmem
      have := mem_of_nodup_map_id hn hr hr2 hid
      subst this
      rw [decide_eq_true_iff, num_hours_one_iff] at hage
      omega
    constructor
    · unfold housekeep_prs
      refine List.mem_filter.mpr ⟨hr, ?_⟩
      simp only [Bool.not_eq_eq_eq_not, Bool.not_true]
      exact (Bool.not_eq_true _).mp (fun hc => hnot ((contains_iff _ _).mp hc))
    · intro p hp hpid
      obtain ⟨p2, hp2, hid2, hres2⟩ := housekeep_pulls_tgt s now hp
      refine ⟨p2, hp2, hid2, ?_⟩
      rw [hres2, if_neg (fun hc => hnot (by
        rw [← hpid]; exact (contains_iff _ _).mp hc))]

/-- Witness for C5 on a store with an expired (id 1) and a fresh (id 2)
reservation at time 100. -/
theorem housekeep_lease_expiry_witness :
    (∀ r2 ∈ (housekeep_prs exStoreLease 100).reservations, r2.id ≠ 1)
    ∧ (∀ p ∈ (housekeep_prs exStoreLease 100).pulls, p.id = 1 → p.reserved_by = none) :=
  (housekeep_lease_expiry exStoreLease 100 (by decide)
    { id := 1, time := 0 } (by decide)).1 (by decide)

/-! ## Claim C7: extend_reservations reports the wrong count -/

/-- Claim C7 (code bug): on a store with two reservations,
extend_reservations does set every reservation's time to now + 7 days in
its one UPDATE statement, but the count it reports is the number of rows
the statement returned — always 0 — not the two rows it affected. -/
theorem extend_reservations_zero_count :
    (extend_reservations { pulls := [], reservations := [{ id := 1, time := 0 },
                           { id := 2, time := 5 }] } 100).1.reservations
      = [{ id := 1, time := 10180 }, { id := 2, time := 10180 }]
    ∧ (extend_reservations { pulls := [], reservations := [{ id := 1, time := 0 },
                             { id := 2, time := 5 }] } 100).2 = 0
    ∧ ({ pulls := [], reservations := [{ id := 1, time := 0 },
         { id := 2, time := 5 }] } : DBState).reservations.length = 2 := by
  decide

/-! ## Claim C8: filter-term allow-list -/

/-- Claim C8 counterexample: the term "/" consists only of characters
the claim allow-lists, yet fn root rejects it. -/
theorem validate_filter_slash_rejected :
    validate_filter "/" = false ∧ ("/".toList.all specC8AllowedChar) = true := by
  decide

/-- Claim C8 as amended: a filter query is accepted exactly when every
semicolon-separated term consists only of alphanumerics, space, dot,
dash, underscore and colon (slash and parentheses are not allowed, in
contrast to the original claim); in particular the script-tag query of
the spec's validation test is rejected.  The validation is a pure function of the query, so it
happens before any store access. -/
theorem validate_filter_allowlist (q : String) :
    (validate_filter q = true ↔
      ∀ label ∈ splitSemi q.toList, ∀ c ∈ label, specC8AllowedCharAmended c = true)
    ∧ validate_filter "a;<script>" = false := by
  refine ⟨?_, by decide⟩
  unfold validate_filter
  simp only [List.all_eq_true]
  constructor <;> intro h label hl c hc <;> have h2 := h label hl c hc <;> revert h2 <;>
    simp only [labelFilterCharOk, specC8AllowedCharAmended, Bool.or_eq_true] <;> tauto

/-- Witness for C8 (amended) on a term made only of allowed
characters. -/
theorem validate_filter_allowlist_witness :
    validate_filter "2.status: merge conflict" = true :=
  (validate_filter_allowlist "2.status: merge conflict").1.mpr (by decide)

/-! ## Claim C4: urgency sort -/

/-- Claim C4 counterexample: two items with equal approval score,
updated at 100 and 200; the tweak sort puts the older one first, not the
newer one as the claim asserts. -/
theorem tweak_sort_newer_first_counterexample :
    tweak_sort_page 300 [exPR200, exPR100] = [exPR100, exPR200]
    ∧ ¬ specUrgencyNewerFirst (tweak_sort_page 300 [exPR200, exPR100]) := by
  decide

/-- Claim C4 as amended: the tweak sort re-sorts the fetched page into a
permutation ordered ascending by the composite key, where the approval
score is the highest matching approvals tier plus one for a
maintainer-approval marker, and ties in the approval score are broken by
ascending update time — older items first, not newer ones; the re-sort
is suppressed for the NeedsMerger category. -/
theorem urgency_sort_amended (now : Int) (page : List PR) :
    (tweak_sort_page now page).Perm page
    ∧ (tweak_sort_page now page).Pairwise (fun a b =>
        approvalsOf (a.inner.labels.getD []) < approvalsOf (b.inner.labels.getD [])
        ∨ (approvalsOf (a.inner.labels.getD []) = approvalsOf (b.inner.labels.getD [])
            ∧ a.inner.updated_at ≤ b.inner.updated_at))
    ∧ (∀ labels : List Label, approvalsOf labels
        = specApprovalTier labels
          + (if labels.any (fun x => x.name = "12.approved-by: package-maintainer")
              then 1 else 0))
    ∧ (∀ s filter onr limit, get_pulls s (some NEEDS_MERGER) filter onr true limit now
        = get_pulls s (some NEEDS_MERGER) filter onr false limit now) := by
  refine ⟨List.perm_insertionSort _ _, ?_, ?_, ?_⟩
  · have h := List.sorted_insertionSort (tweakKeyLE now) page
    refine List.Pairwise.imp ?_ h
    intro a b hab
    unfold tweakKeyLE tweakKey at hab
    simp only at hab
    omega
  · intro labels
    unfold approvalsOf specApprovalTier
    cases h1 : labels.any (fun x => x.name = "12.approvals: 1") <;>
      cases h2 : labels.any (fun x => x.name = "12.approvals: 2") <;>
        cases h3 : labels.any (fun x => x.name = "12.approvals: 3+") <;>
          cases h4 : labels.any (fun x => x.name = "12.approved-by: package-maintainer") <;>
            simp
  · intro s filter onr limit
    unfold get_pulls
    simp

/-! ## Claim C9: sync upsert frame -/

/-- Claim C9: when the upserted id is already present, the upsert
rewrites only author, last_updated and data of the rows with that id and
leaves every other row — and in particular every category and
reserved_by field — unchanged; when the id is absent, the new row is
appended with null category and null reserved_by. -/
theorem sync_upsert_frame (pulls : List PullRow) (u : UpsertRow) (t : Int)
    (hlu : u.last_updated = some t) :
    ((∃ p ∈ pulls, p.id = u.id) →
      applyUpsert pulls u = pulls.map fun q =>
        if q.id = u.id
          then { q with author := u.author, last_updated := t, data := u.data } else q)
    ∧ ((∀ p ∈ pulls, p.id ≠ u.id) →
      applyUpsert pulls u = pulls
        ++ [{ id := u.id, author := u.author, last_updated := t,
              data := u.data, category := none, reserved_by := none }]) := by
  obtain ⟨uid, uauthor, ulu, udata⟩ := u
  simp only at hlu
  subst hlu
  unfold applyUpsert
  dsimp only
  constructor
  · intro h
    rw [if_pos (by simp only [List.any_eq_true, beq_iff_eq]; exact h)]
    exact List.map_congr_left fun a _ => by by_cases hc : a.id = uid <;> simp [hc]
  · intro h
    rw [if_neg (by simp only [List.any_eq_true, beq_iff_eq]
                   rintro ⟨p, hp, hpe⟩
                   exact h p hp hpe)]

/-- Witness for C9: upserting id 1 into exStoreCursor keeps the stored
category and reserved_by of row 1 and does not touch row 2. -/
theorem sync_upsert_frame_witness :
    applyUpsert exStoreCursor.pulls
        { id := 1, author := "z", last_updated := some 40, data := exData200 }
      = [{ id := 1, author := "z", last_updated := 40, data := exData200,
           category := none, reserved_by := none },
         { id := 2, author := "b", last_updated := 5, data := exData200,
           category := none, reserved_by := none }] := by
  rw [(sync_upsert_frame exStoreCursor.pulls
    { id := 1, author := "z", last_updated := some 40, data := exData200 } 40 rfl).1
    (by decide)]
  decide

/-! ## Claim C10: commit failure on the reserve path -/

/-- Claim C10: when the selection subquery of reserve_pr finds a row and
the final commit fails, the failure is only logged: the call still
returns the constructed URL of the selected id while the persisted state
is the pre-transaction state; the returned body is the same one a
successful commit produces. -/
theorem reserve_commit_failure (s : DBState) (cat : String) (filter : PullData → Bool)
    (ip : String) (time : Int) (id : Nat)
    (hsel : reserve_select s cat filter = some id) :
    reserve_pr s cat filter ip time false = (s, some (prUrl id))
    ∧ (reserve_pr s cat filter ip time true).2 = some (prUrl id) := by
  unfold reserve_pr
  rw [hsel]
  exact ⟨rfl, rfl⟩

/-- Witness for C10 on exStoreTwo: a failing commit still returns the
URL of PR 2 and leaves the store unchanged. -/
theorem reserve_commit_failure_witness :
    reserve_pr exStoreTwo "New" (fun _ => true) "ip" 7 false
      = (exStoreTwo, some (prUrl 2)) :=
  (reserve_commit_failure exStoreTwo "New" (fun _ => true) "ip" 7 2 (by decide)).1

/-! ## Support lemmas for the claim path -/

theorem reserve_pr_snd_eq (s : DBState) (cat : String) (filter : PullData → Bool)
    (ip : String) (time : Int) (ok : Bool) :
    (reserve_pr s cat filter ip time ok).2 = (reserve_select s cat filter).map prUrl := by
  unfold reserve_pr
  cases hsel : reserve_select s cat filter <;> simp

theorem reserve_select_none_iff (s : DBState) (cat : String) (filter : PullData → Bool) :
    reserve_select s cat filter = none
      ↔ ∀ p ∈ s.pulls, reserveEligible cat filter p = false := by
  unfold reserve_select
  rw [Option.map_eq_none']
  rw [List.head?_eq_none_iff]
  constructor
  · intro h p hp
    have hperm := List.perm_insertionSort luLE (s.pulls.filter (reserveEligible cat filter))
    rw [h] at hperm
    have hnil : s.pulls.filter (reserveEligible cat filter) = [] := hperm.symm.eq_nil
    exact Bool.not_eq_true _ |>.mp (List.filter_eq_nil_iff.mp hnil p hp)
  · intro h
    have hnil : s.pulls.filter (reserveEligible cat filter) = [] :=
      List.filter_eq_nil_iff.mpr fun p hp => by rw [h p hp]; exact Bool.false_ne_true
    rw [hnil]
    rfl

theorem sorted_head_min {α : Type} {r : α → α → Prop} {l : List α} {a b : α}
    (hs : List.Sorted r l) (hh : l.head? = some a) (hb : b ∈ l) : b = a ∨ r a b := by
  obtain ⟨ys, rfl⟩ := List.head?_eq_some_iff.mp hh
  rcases List.mem_cons.mp hb with h | h
  · exact Or.inl h
  · exact Or.inr ((List.pairwise_cons.mp hs).1 b h)

theorem reserve_select_eligible (s : DBState) (cat : String) (filter : PullData → Bool)
    {id0 : Nat} (h : reserve_select s cat filter = some id0) :
    ∃ p ∈ s.pulls, p.id = id0 ∧ reserveEligible cat filter p = true
      ∧ ∀ q ∈ s.pulls, reserveEligible cat filter q = true →
          p.last_updated ≤ q.last_updated := by
  unfold reserve_select at h
  obtain ⟨p0, hh, hp0id⟩ := Option.map_eq_some'.mp h
  have hmem : p0 ∈ List.insertionSort luLE (s.pulls.filter (reserveEligible cat filter)) :=
    List.mem_of_mem_head? (by rw [hh]; rfl)
  have hmemL := (List.perm_insertionSort luLE _).mem_iff.mp hmem
  obtain ⟨hp0, helig⟩ := List.mem_filter.mp hmemL
  refine ⟨p0, hp0, hp0id, helig, ?_⟩
  intro q hq hqelig
  have hqS : q ∈ List.insertionSort luLE (s.pulls.filter (reserveEligible cat filter)) :=
    (List.perm_insertionSort luLE _).mem_iff.mpr (List.mem_filter.mpr ⟨hq, hqelig⟩)
  rcases sorted_head_min (List.sorted_insertionSort luLE _) hh hqS with h2 | h2
  · rw [h2]
  · exact h2

theorem getPullsPred_eq_reserveEligible (cat : String) (filter : PullData → Bool)
    (p : PullRow) : getPullsPred (some cat) filter true p = reserveEligible cat filter p := by
  unfold getPullsPred reserveEligible
  by_cases hnew : cat = "New" <;>
    simp [hnew, Bool.and_comm, Bool.and_left_comm, Bool.and_assoc]

theorem get_pulls_limit_one_head (s : DBState) (cat : String) (filter : PullData → Bool)
    (now : Int) :
    (get_pulls s (some cat) filter true true 1 now).head?
      = (List.insertionSort luLE (s.pulls.filter (getPullsPred (some cat) filter true))).head?.map
          (fun p => ({ inner := p.data, category := p.category } : PR)) := by
  unfold get_pulls
  cases hS : List.insertionSort luLE (s.pulls.filter (getPullsPred (some cat) filter true)) with
  | nil => split <;> simp [hS, tweak_sort_page]
  | cons p0 tl => split <;> simp [hS, tweak_sort_page, List.insertionSort, List.orderedInsert]

/-! ## Claim C2: the claim path picks the oldest eligible item -/

/-- Claim C2: inside one transaction, reserve_pr selects with limit 1
over the unreserved rows matching the request category (null category
for the sentinel "New") and the optional filter; it returns none and
changes nothing when no row is eligible, otherwise it returns the URL of
a row with the smallest last_updated among the eligible rows; its
selection agrees with running the Selector (get_pulls) with limit 1,
excludeReserved and the urgency sort on (which re-sorts a one-element
page, hence changes nothing). -/
theorem reserve_selects_oldest (s : DBState) (cat : String) (filter : PullData → Bool)
    (ip : String) (time : Int) (now : Int)
    (hid : ∀ p ∈ s.pulls, p.data.number = p.id) :
    ((reserve_pr s cat filter ip time true).2 = none ↔
      ∀ p ∈ s.pulls, reserveEligible cat filter p = false)
    ∧ ((reserve_pr s cat filter ip time true).2 = none →
        (reserve_pr s cat filter ip time true).1 = s)
    ∧ (∀ id0, reserve_select s cat filter = some id0 →
        (∃ p ∈ s.pulls, p.id = id0 ∧ reserveEligible cat filter p = true
          ∧ ∀ q ∈ s.pulls, reserveEligible cat filter q = true →
              p.last_updated ≤ q.last_updated)
        ∧ (reserve_pr s cat filter ip time true).2 = some (prUrl id0))
    ∧ reserve_select s cat filter
        = ((get_pulls s (some cat) filter true true 1 now).head?).map (·.inner.number) := by
  refine ⟨?_, ?_, ?_, ?_⟩
  · rw [reserve_pr_snd_eq, Option.map_eq_none']
    exact reserve_select_none_iff s cat filter
  · intro h
    rw [reserve_pr_snd_eq, Option.map_eq_none'] at h
    unfold reserve_pr
    rw [h]
  · intro id0 hsel
    refine ⟨reserve_select_eligible s cat filter hsel, ?_⟩
    rw [reserve_pr_snd_eq, hsel]
    rfl
  · rw [get_pulls_limit_one_head]
    rw [List.filter_congr fun p _ => getPullsPred_eq_reserveEligible cat filter p]
    unfold reserve_select
    cases hS : (List.insertionSort luLE
        (s.pulls.filter (reserveEligible cat filter))).head? with
    | none => rfl
    | some p0 =>
      have hp0 : p0 ∈ s.pulls := by
        have hmem := List.mem_of_mem_head? (l :=
          List.insertionSort luLE (s.pulls.filter (reserveEligible cat filter)))
          (by rw [hS]; rfl)
        exact (List.mem_filter.mp ((List.perm_insertionSort luLE _).mem_iff.mp hmem)).1
      simp [hid p0 hp0]

/-- Witness for C2 on exStoreTwo: id 2 (last_updated 100) is chosen over
id 1 (last_updated 300) and its URL is returned. -/
theorem reserve_selects_oldest_witness :
    (reserve_pr exStoreTwo "New" (fun _ => true) "ip" 7 true).2 = some (prUrl 2) :=
  ((reserve_selects_oldest exStoreTwo "New" (fun _ => true) "ip" 7 500
    (by decide)).2.2.1 2 (by decide)).2

/-! ## Support lemmas for the sync cursor -/

theorem foldl_max_le (as : List Int) (a : Int) :
    a ≤ as.foldl max a ∧ ∀ x ∈ as, x ≤ as.foldl max a := by
  induction as generalizing a with
  | nil => simp
  | cons x xs ih =>
    simp only [List.foldl_cons]
    obtain ⟨h1, h2⟩ := ih (max a x)
    refine ⟨le_trans (le_max_left a x) h1, ?_⟩
    intro y hy
    rcases List.mem_cons.mp hy with rfl | hy
    · exact le_trans (le_max_right a y) h1
    · exact h2 y hy

theorem foldl_max_mem (as : List Int) (a : Int) :
    as.foldl max a = a ∨ as.foldl max a ∈ as := by
  induction as generalizing a with
  | nil => simp
  | cons x xs ih =>
    simp only [List.foldl_cons]
    rcases ih (max a x) with h | h
    · rcases max_choice a x with hm | hm
      · exact Or.inl (h.trans hm)
      · exact Or.inr (List.mem_cons.mpr (Or.inl (h.trans hm)))
    · exact Or.inr (List.mem_cons_of_mem x h)

theorem max?_spec (l : List Int) (m : Int) (h : l.max? = some m) :
    m ∈ l ∧ ∀ a ∈ l, a ≤ m := by
  cases l with
  | nil => cases h
  | cons a as =>
    have hm : as.foldl max a = m := by
      simp only [List.max?] at h
      exact Option.some_injective _ h
    constructor
    · rcases foldl_max_mem as a with h2 | h2
      · rw [← hm, h2]
        exact List.mem_cons_self a as
      · rw [← hm]
        exact List.mem_cons_of_mem a h2
    · intro b hb
      rcases List.mem_cons.mp hb with rfl | hb
      · rw [← hm]
        exact (foldl_max_le as b).1
      · rw [← hm]
        exact (foldl_max_le as a).2 b hb

theorem max?_isSome_of_mem (l : List Int) (a : Int) (h : a ∈ l) :
    ∃ m, l.max? = some m := by
  cases l with
  | nil => cases h
  | cons x xs => exact ⟨xs.foldl max x, rfl⟩

theorem collectPage_cursor_bound (c : Int) (page : List FetchedPR) :
    ∀ u ∈ (collectPage (some c) page).1, ∀ tu, u.last_updated = some tu → c ≤ tu := by
  induction page with
  | nil => simp [collectPage]
  | cons pr rest ih =>
    intro u hu tu htu
    rw [collectPage] at hu
    split at hu
    · exact ih u hu tu htu
    · split at hu
      · exact absurd hu (List.not_mem_nil u)
      · rename_i hnotold
        split at hu
        · exact ih u hu tu htu
        · rcases List.mem_cons.mp hu with rfl | hmem
          · replace htu : pr.updated_at = some tu := htu
            rw [htu] at hnotold
            simp only [older_than_cursor, Option.map_some', Option.getD_some,
              decide_eq_true_eq] at hnotold
            omega
          · exact ih u hmem tu htu

theorem collectPages_cursor_bound (c : Int) (pages : List (List FetchedPR)) :
    ∀ u ∈ (collectPages (some c) pages).1, ∀ tu, u.last_updated = some tu → c ≤ tu := by
  induction pages with
  | nil => simp [collectPages]
  | cons page rest ih =>
    intro u hu tu htu
    rw [collectPages] at hu
    split at hu
    · exact absurd hu (List.not_mem_nil u)
    · split at hu
      · exact collectPage_cursor_bound c page u hu tu htu
      · rcases List.mem_append.mp hu with h | h
        · exact collectPage_cursor_bound c page u h tu htu
        · exact ih u h tu htu

theorem foldl_upsert_exists (t0 : Int) (ups : List UpsertRow) :
    ∀ pulls : List PullRow,
      (∃ p ∈ pulls, t0 ≤ p.last_updated) →
      (∀ u ∈ ups, ∀ tu, u.last_updated = some tu → t0 ≤ tu) →
      ∃ p ∈ ups.foldl applyUpsert pulls, t0 ≤ p.last_updated := by
  induction ups with
  | nil =>
    intro pulls h _
    simpa using h
  | cons u us ih =>
    intro pulls h hb
    simp only [List.foldl_cons]
    refine ih (applyUpsert pulls u) ?_ (fun v hv => hb v (List.mem_cons_of_mem u hv))
    obtain ⟨p, hp, hple⟩ := h
    unfold applyUpsert
    cases hlu : u.last_updated with
    | none => exact ⟨p, hp, hple⟩
    | some tu =>
      have htu : t0 ≤ tu := hb u (List.mem_cons_self u us) tu hlu
      dsimp only
      split
      · refine ⟨_, List.mem_map_of_mem _ hp, ?_⟩
        by_cases hc : (p.id == u.id) = true <;> simp only [hc, if_true, if_false]
        · exact htu
        · exact hple
      · exact ⟨p, List.mem_append.mpr (Or.inl hp), hple⟩

/-! ## Claim C6: the sync cursor -/

/-- Claim C6 counterexample: a store with last_updated values 10 and 5,
and a feed whose only entry closes PR 1; after the sync the cursor drops
from 10 to 5, so lastUpdateTimestamp is not monotone over an arbitrary
successful sync. -/
theorem last_update_decrease_counterexample :
    last_update exStoreCursor = some 10
    ∧ last_update (update_prs exStoreCursor exFeedClose1) = some 5
    ∧ ¬ ((10 : Int) ≤ 5) := by decide

/-- Claim C6 as amended: after a successful sync that schedules no
deletion (no closed PR was fetched), lastUpdateTimestamp is at least its
pre-sync value; deletions of closed items can remove the maximum and
lower it, as the counterexample shows. -/
theorem last_update_monotone (s : DBState) (pages : List (List FetchedPR))
    (hdel : (collectPages (last_update s) pages).2 = []) :
    ∀ t, last_update s = some t →
      ∃ t2, last_update (update_prs s pages) = some t2 ∧ t ≤ t2 := by
  intro t ht
  obtain ⟨htmem, _⟩ := max?_spec _ t ht
  obtain ⟨p0, hp0, hp0lu⟩ := List.mem_map.mp htmem
  unfold update_prs
  rw [ht] at hdel ⊢
  rw [hdel]
  simp only [List.contains_nil, Bool.not_false, List.filter_true]
  have hex : ∃ p ∈ ((collectPages (some t) pages).1).foldl applyUpsert s.pulls,
      t ≤ p.last_updated :=
    foldl_upsert_exists t _ s.pulls ⟨p0, hp0, le_of_eq hp0lu.symm⟩
      (collectPages_cursor_bound t pages)
  obtain ⟨p1, hp1, hp1le⟩ := hex
  have hmem1 := List.mem_map_of_mem (fun p : PullRow => p.last_updated) hp1
  obtain ⟨m, hm⟩ := max?_isSome_of_mem _ _ hmem1
  obtain ⟨_, hbound⟩ := max?_spec _ m hm
  exact ⟨m, hm, le_trans hp1le (hbound _ hmem1)⟩

/-- Witness for C6 (amended): syncing exStoreCursor with a feed holding
one open PR (id 3, updated 50) keeps the cursor at least 10. -/
theorem last_update_monotone_witness :
    ∃ t2, last_update (update_prs exStoreCursor exFeedOpen3) = some t2 ∧ (10 : Int) ≤ t2 :=
  last_update_monotone exStoreCursor exFeedOpen3 (by decide) 10 (by decide)

/-! ## Support lemmas for the reservation invariant -/

theorem upsertReservation_mem_id (rs : List Reservation) (id : Nat) (time : Int) :
    ∃ r ∈ upsertReservation rs id time, r.id = id := by
  unfold upsertReservation
  split
  · rename_i h
    obtain ⟨r0, hr0, hbeq⟩ := List.any_eq_true.mp h
    have him := List.mem_map_of_mem
      (fun r => if r.id == id then { r with time := time } else r) hr0
    simp only at him
    rw [if_pos hbeq] at him
    exact ⟨_, him, beq_iff_eq.mp hbeq⟩
  · exact ⟨{ id := id, time := time }, List.mem_append.mpr (Or.inr (by simp)), rfl⟩

theorem upsertReservation_preserve (rs : List Reservation) (id : Nat) (time : Int) :
    ∀ r ∈ rs, ∃ r2 ∈ upsertReservation rs id time, r2.id = r.id := by
  intro r hr
  unfold upsertReservation
  split
  · refine ⟨_, List.mem_map_of_mem _ hr, ?_⟩
    by_cases hc : (r.id == id) = true <;> simp [hc]
  · exact ⟨r, List.mem_append.mpr (Or.inl hr), rfl⟩

theorem upsertReservation_ids (rs : List Reservation) (id : Nat) (time : Int) :
    ∀ r2 ∈ upsertReservation rs id time, r2.id = id ∨ ∃ r ∈ rs, r2.id = r.id := by
  intro r2 h2
  unfold upsertReservation at h2
  split at h2
  · obtain ⟨r, hr, rfl⟩ := List.mem_map.mp h2
    right
    refine ⟨r, hr, ?_⟩
    by_cases hc : (r.id == id) = true <;> simp [hc]
  · rcases List.mem_append.mp h2 with h | h
    · exact Or.inr ⟨r2, h, rfl⟩
    · left
      rw [List.mem_singleton.mp h]

theorem mem_map_reserve (pulls : List PullRow) (id0 : Nat) (ip : String) {p : PullRow}
    (hp : p ∈ pulls) :
    (p.id = id0 → { p with reserved_by := some ip }
      ∈ pulls.map fun q => if q.id == id0 then { q with reserved_by := some ip } else q)
    ∧ (p.id ≠ id0 → p
      ∈ pulls.map fun q => if q.id == id0 then { q with reserved_by := some ip } else q) := by
  have him := List.mem_map_of_mem
    (fun q => if q.id == id0 then { q with reserved_by := some ip } else q) hp
  simp only at him
  constructor <;> intro h
  · rwa [if_pos (beq_iff_eq.mpr h)] at him
  · rwa [if_neg (fun hc => h (beq_iff_eq.mp hc))] at him

theorem applyUpsert_tgt (pulls : List PullRow) (u : UpsertRow) :
    ∀ p ∈ pulls, ∃ p2 ∈ applyUpsert pulls u,
      p2.id = p.id ∧ p2.reserved_by = p.reserved_by := by
  intro p hp
  unfold applyUpsert
  cases hlu : u.last_updated with
  | none => exact ⟨p, hp, rfl, rfl⟩
  | some t =>
    dsimp only
    split
    · refine ⟨_, List.mem_map_of_mem _ hp, ?_⟩
      by_cases hc : (p.id == u.id) = true <;> simp [hc]
    · exact ⟨p, List.mem_append.mpr (Or.inl hp), rfl, rfl⟩

theorem applyUpsert_src (pulls : List PullRow) (u : UpsertRow) :
    ∀ p2 ∈ applyUpsert pulls u,
      (∃ p ∈ pulls, p2.id = p.id ∧ p2.reserved_by = p.reserved_by)
      ∨ p2.reserved_by = none := by
  intro p2 h2
  unfold applyUpsert at h2
  cases hlu : u.last_updated with
  | none =>
    rw [hlu] at h2
    exact Or.inl ⟨p2, h2, rfl, rfl⟩
  | some t =>
    rw [hlu] at h2
    dsimp only at h2
    split at h2
    · obtain ⟨p, hp, rfl⟩ := List.mem_map.mp h2
      left
      refine ⟨p, hp, ?_⟩
      by_cases hc : (p.id == u.id) = true <;> simp [hc]
    · rcases List.mem_append.mp h2 with h | h
      · exact Or.inl ⟨p2, h, rfl, rfl⟩
      · right
        rw [List.mem_singleton.mp h]

theorem foldl_upsert_tgt (ups : List UpsertRow) :
    ∀ pulls : List PullRow, ∀ p ∈ pulls,
      ∃ p2 ∈ ups.foldl applyUpsert pulls,
        p2.id = p.id ∧ p2.reserved_by = p.reserved_by := by
  induction ups with
  | nil => exact fun pulls p hp => ⟨p, hp, rfl, rfl⟩
  | cons u us ih =>
    intro pulls p hp
    simp only [List.foldl_cons]
    obtain ⟨p2, h2, hid, hres⟩ := applyUpsert_tgt pulls u p hp
    obtain ⟨p3, h3, hid3, hres3⟩ := ih (applyUpsert pulls u) p2 h2
    exact ⟨p3, h3, hid3.trans hid, hres3.trans hres⟩

theorem foldl_upsert_src (ups : List UpsertRow) :
    ∀ pulls : List PullRow, ∀ p2 ∈ ups.foldl applyUpsert pulls,
      (∃ p ∈ pulls, p2.id = p.id ∧ p2.reserved_by = p.reserved_by)
      ∨ p2.reserved_by = none := by
  induction ups with
  | nil => exact fun pulls p2 h2 => Or.inl ⟨p2, h2, rfl, rfl⟩
  | cons u us ih =>
    intro pulls p2 h2
    simp only [List.foldl_cons] at h2
    rcases ih _ p2 h2 with ⟨p1, h1, hid, hres⟩ | hnone
    · rcases applyUpsert_src pulls u p1 h1 with ⟨p0, h0, hid0, hres0⟩ | hnone1
      · exact Or.inl ⟨p0, h0, hid.trans hid0, hres.trans hres0⟩
      · exact Or.inr (hres.trans hnone1)
    · exact Or.inr hnone

/-! ## Claim C1: the reservation invariant -/

/-- Claim C1 counterexample: a store holding one reserved pull (id 1)
with its reservation row satisfies the invariant; a sync whose feed
closes PR 1 deletes the pulls row but leaves the reservation row, so the
invariant does not survive update_prs. -/
theorem invariant_sync_delete_counterexample :
    Inv exStoreReserved ∧ ¬ Inv (update_prs exStoreReserved exFeedClose1) := by
  decide

/-- Claim C1 as amended: the invariant — a reservation row exists
exactly for the pulls whose reserved_by is non-null — is preserved by
reserve_pr (on both commit outcomes), by housekeep_prs, by
extend_reservations, and by update_prs provided no deleted (closed) id
belongs to a reserved pull; deleting a closed reserved item leaves its
reservation row dangling, as the counterexample shows. -/
theorem invariant_preservation (s : DBState) (hInv : Inv s) :
    (∀ cat filter ip time commitOk, Inv (reserve_pr s cat filter ip time commitOk).1)
    ∧ (∀ now, Inv (housekeep_prs s now))
    ∧ (∀ now, Inv (extend_reservations s now).1)
    ∧ (∀ pages,
        (∀ id2 ∈ (collectPages (last_update s) pages).2,
            ∀ p ∈ s.pulls, p.id = id2 → p.reserved_by = none) →
        Inv (update_prs s pages)) := by
  obtain ⟨hInv1, hInv2⟩ := hInv
  refine ⟨?_, ?_, ?_, ?_⟩
  · intro cat filter ip time commitOk
    unfold reserve_pr
    cases hsel : reserve_select s cat filter with
    | none => exact ⟨hInv1, hInv2⟩
    | some id0 =>
      cases commitOk with
      | false => exact ⟨hInv1, hInv2⟩
      | true =>
        dsimp only
        obtain ⟨psel, hpsel, hpselid, _, _⟩ := reserve_select_eligible s cat filter hsel
        constructor
        · intro r2 hr2
          rcases upsertReservation_ids s.reservations id0 time r2 hr2
            with hid2 | ⟨r, hr, hid2⟩
          · exact ⟨_, (mem_map_reserve s.pulls id0 ip hpsel).1 hpselid,
              hpselid.trans hid2.symm, by simp⟩
          · obtain ⟨q, hq, hqid, hqres⟩ := hInv1 r hr
            by_cases hc : q.id = id0
            · exact ⟨_, (mem_map_reserve s.pulls id0 ip hq).1 hc,
                hqid.trans hid2.symm, by simp⟩
            · exact ⟨q, (mem_map_reserve s.pulls id0 ip hq).2 hc,
                hqid.trans hid2.symm, hqres⟩
        · intro p2 hp2 hp2res
          obtain ⟨q, hq, heq⟩ := List.mem_map.mp hp2
          by_cases hc : (q.id == id0) = true
          · rw [if_pos hc] at heq
            obtain ⟨r, hrmem, hrid⟩ := upsertReservation_mem_id s.reservations id0 time
            refine ⟨r, hrmem, ?_⟩
            rw [hrid, ← heq]
            exact (beq_iff_eq.mp hc).symm
          · rw [if_neg hc] at heq
            subst heq
            obtain ⟨r, hr, hrid⟩ := hInv2 q hq hp2res
            obtain ⟨r2, hr2, hr2id⟩ := upsertReservation_preserve s.reservations id0 time r hr
            exact ⟨r2, hr2, hr2id.trans hrid⟩
  · intro now
    constructor
    · intro r2 hr2
      have hr2m : r2 ∈ s.reservations ∧ ¬ r2.id ∈ pulls_to_unreserve s now := by
        unfold housekeep_prs at hr2
        have h2 := List.mem_filter.mp hr2
        refine ⟨h2.1, fun hmem => ?_⟩
        rw [(contains_iff _ _).mpr hmem] at h2
        exact absurd h2.2 (by simp)
      obtain ⟨q, hq, hqid, hqres⟩ := hInv1 r2 hr2m.1
      obtain ⟨p2, hp2, hpid, hpres⟩ := housekeep_pulls_tgt s now hq
      refine ⟨p2, hp2, hpid.trans hqid, ?_⟩
      rw [hpres, if_neg (fun hcc => hr2m.2 (by
        rw [← hqid]; exact (contains_iff _ _).mp hcc))]
      exact hqres
    · intro p2 hp2 hp2res
      obtain ⟨q, hq, hpid, hpres⟩ := housekeep_pulls_src s now hp2
      by_cases hc : q.id ∈ pulls_to_unreserve s now
      · exfalso
        apply hp2res
        rw [hpres, if_pos ((contains_iff _ _).mpr hc)]
      · have hsame : p2.reserved_by = q.reserved_by := by
          rw [hpres, if_neg (fun hcc => hc ((contains_iff _ _).mp hcc))]
        obtain ⟨r, hr, hrid⟩ := hInv2 q hq (hsame ▸ hp2res)
        refine ⟨r, ?_, hrid.trans hpid.symm⟩
        unfold housekeep_prs
        refine List.mem_filter.mpr ⟨hr, ?_⟩
        have : ¬ (pulls_to_unreserve s now).contains r.id = true :=
          fun hcc => hc (by rw [← hrid]; exact (contains_iff _ _).mp hcc)
        simp only [Bool.not_eq_true] at this
        rw [this]
        rfl
  · intro now
    unfold extend_reservations sqlUpdateReservationTimes
    constructor
    · intro r2 hr2
      obtain ⟨r, hr, rfl⟩ := List.mem_map.mp hr2
      obtain ⟨q, hq, hqid, hqres⟩ := hInv1 r hr
      exact ⟨q, hq, hqid, hqres⟩
    · intro p hp hpres
      obtain ⟨r, hr, hrid⟩ := hInv2 p hp hpres
      exact ⟨{ r with time := now + 7 * 24 * 60 }, List.mem_map_of_mem _ hr, hrid⟩
  · intro pages hdel
    unfold update_prs
    constructor
    · intro r hr
      obtain ⟨q, hq, hqid, hqres⟩ := hInv1 r hr
      obtain ⟨p2, hp2, hpid, hpres⟩ := foldl_upsert_tgt _ s.pulls q hq
      have hnot : ¬ q.id ∈ (collectPages (last_update s) pages).2 :=
        fun hmem => hqres (hdel q.id hmem q hq rfl)
      refine ⟨p2, List.mem_filter.mpr ⟨hp2, ?_⟩, hpid.trans hqid, by
        rw [hpres]; exact hqres⟩
      rw [hpid]
      simp only [Bool.not_eq_true']
      exact (Bool.not_eq_true _).mp (fun hcc => hnot ((contains_iff _ _).mp hcc))
    · intro p2 hp2 hp2res
      have hp2m := (List.mem_filter.mp hp2).1
      rcases foldl_upsert_src _ s.pulls p2 hp2m with ⟨q, hq, hqid, hqres⟩ | hnone
      · obtain ⟨r, hr, hrid⟩ := hInv2 q hq (by rw [← hqres]; exact hp2res)
        exact ⟨r, hr, hrid.trans hqid.symm⟩
      · exact absurd hnone hp2res

/-- Witness for C1 (amended): housekeeping preserves the invariant on
exStoreLease. -/
theorem invariant_preservation_witness :
    Inv (housekeep_prs exStoreLease 100) :=
  (invariant_preservation exStoreLease (by decide)).2.1 100

end PrDashboard
